import Mathlib

/-!
Verification development for the blackbox-cli batch dispatch and campaign
watch engines.  Definitions are shallow embeddings of the JavaScript source:
`BatchCaller` models `src/lib/batch-caller.js`, `ConcurrencyUtils` models
`src/lib/concurrency-utils.js`, and `CampaignWatcher` models the watcher
class (schedule resolution, pagination, reconciliation, activity feed).
-/

namespace BatchCaller

/-- The chunk-partition loop of `_processBatches`
    (`for (let i = 0; i < calls.length; i += batchSize) batches.push(calls.slice(i, i + batchSize))`),
    written with an explicit fuel bound; `calls.length` fuel suffices whenever
    `batchSize >= 1`, which is the only regime in which the JS loop terminates. -/
def chunkAux (batchSize : Nat) : Nat → List α → List (List α)
  | 0, _ => []
  | _ + 1, [] => []
  | fuel + 1, l => l.take batchSize :: chunkAux batchSize fuel (l.drop batchSize)

/-- The batch partition computed at the top of `_processBatches`. -/
def makeBatches (batchSize : Nat) (calls : List α) : List (List α) :=
  chunkAux batchSize calls.length calls

/-- Outcome of one `_sendBatch` call: the bulk endpoint either returns the list
    of created-call records (we keep its length, which is what
    `addCreatedCalls` adds to `successful`), or throws with an optional HTTP
    status (`error?.response?.status`, absent for network errors). -/
inductive BatchOutcome where
  | success (createdCount : Nat) : BatchOutcome
  | failure (status : Option Nat) : BatchOutcome
deriving DecidableEq

/-- `[401, 403, 404].includes(status)` from `_processBatches`. -/
def isFatalStatus : Option Nat → Bool
  | some s => s == 401 || s == 403 || s == 404
  | none => false

def isFatalOutcome : BatchOutcome → Bool
  | .success _ => false
  | .failure s => isFatalStatus s

def isTransientOutcome : BatchOutcome → Bool
  | .success _ => false
  | .failure s => !isFatalStatus s

/-- The dispatcher counters of the `Stats` class that the claims mention, plus
    the list of chunk indices actually submitted to the remote endpoint. -/
structure RunStats where
  successful : Nat := 0
  failed : Nat := 0
  errors : List (Nat × Option Nat) := []
  submitted : List Nat := []
deriving DecidableEq

/-- The `for` loop of `_processBatches` over the batch list, starting at chunk
    index `i`: `_sendBatch` records the created calls on success, and on
    failure records an error, adds the chunk size to `failed` and rethrows;
    the loop breaks when the status is fatal and continues otherwise. -/
def processBatchesAux (outcome : Nat → BatchOutcome) :
    List (List α) → Nat → RunStats → RunStats
  | [], _, st => st
  | b :: rest, i, st =>
    match outcome i with
    | .success n =>
        processBatchesAux outcome rest (i + 1)
          { st with successful := st.successful + n, submitted := st.submitted ++ [i] }
    | .failure status =>
        let st1 : RunStats :=
          { st with failed := st.failed + b.length,
                    errors := st.errors ++ [(i, status)],
                    submitted := st.submitted ++ [i] }
        if isFatalStatus status then st1
        else processBatchesAux outcome rest (i + 1) st1

/-- A whole dispatch run: partition `calls` into batches of `batchSize` and
    run the submission loop from the initial counters. -/
def processBatches (batchSize : Nat) (calls : List α) (outcome : Nat → BatchOutcome) :
    RunStats :=
  processBatchesAux outcome (makeBatches batchSize calls) 0 {}

/-- Sum of the sizes of the chunks among the first `k` whose submission failed
    transiently. -/
def transientFailedSizes (outcome : Nat → BatchOutcome) (bs : List (List α)) (k : Nat) : Nat :=
  (((List.range k).filter (fun j => isTransientOutcome (outcome j))).map
    (fun j => (bs.getD j []).length)).sum

end BatchCaller

namespace ConcurrencyUtils

/-- The four classification levels returned by `getConcurrencyLevel`. -/
inductive Level where
  | disabled
  | critical
  | warning
  | healthy
deriving DecidableEq

/-- `calculateUtilizationPct` from `src/lib/concurrency-utils.js`: a negative
    active count coerces to 0, a non-positive max yields 0, otherwise
    `Math.round((active / max) * 100)`.  For a nonnegative argument JS
    `Math.round x` is `floor (x + 1/2)`, so the rounded percentage is
    `floor ((200 * active + max) / (2 * max))`. -/
def calculateUtilizationPct (active concurrency : Int) : Int :=
  let activeVal : Int := if 0 ≤ active then active else 0
  let maxVal : Int := concurrency
  if maxVal ≤ 0 then 0
  else (200 * activeVal + maxVal).fdiv (2 * maxVal)

/-- `getConcurrencyLevel` from `src/lib/concurrency-utils.js`. -/
def getConcurrencyLevel (active concurrency : Int) : Level :=
  let maxVal : Int := concurrency
  if maxVal ≤ 0 then .disabled
  else
    let activeVal : Int := if 0 ≤ active then active else 0
    let pct := calculateUtilizationPct activeVal maxVal
    if activeVal > maxVal ∨ pct ≥ 95 then .critical
    else if pct ≥ 70 then .warning
    else .healthy

/-- Modelled from the spec precedence list: `allowed <= 0` gives disabled,
    `active > allowed` or utilization at least 95 gives critical, utilization
    at least 70 gives warning, otherwise healthy. -/
def specConcurrencyLevel (active concurrency : Int) : Level :=
  if concurrency ≤ 0 then .disabled
  else if active > concurrency ∨ calculateUtilizationPct active concurrency ≥ 95 then .critical
  else if calculateUtilizationPct active concurrency ≥ 70 then .warning
  else .healthy

end ConcurrencyUtils

namespace BatchCaller

/-- A created-call record returned by the bulk-create endpoint, as consumed by
    `_saveCampaignMetadata`. -/
structure CreatedCall where
  callId : String
  endpoint : String
  additionalData : Option String := none
deriving DecidableEq

/-- A `callMapping` value: the `endpoint, additionalData` object stored per
    call id. -/
structure MappingEntry where
  endpoint : String
  additionalData : Option String := none
deriving DecidableEq

/-- The persisted campaign-record fields the claims mention.  `callMapping` is
    a JS object, modelled as an association list whose order mirrors object
    key-insertion order. -/
structure Campaign where
  totalCalls : Nat
  callIds : List String
  callMapping : List (String × MappingEntry)
deriving DecidableEq

/-- JS object-key assignment `obj[k] = v`: overwrite in place when the key
    exists, otherwise append. -/
def objSet (m : List (String × β)) (k : String) (v : β) : List (String × β) :=
  if (m.map Prod.fst).contains k then
    m.map (fun p => if p.1 = k then (k, v) else p)
  else m ++ [(k, v)]

/-- JS spread merge of two objects: keys of the first keep their position with
    values overridden by the second, then keys only in the second follow. -/
def objMerge (oldm newm : List (String × β)) : List (String × β) :=
  oldm.map (fun p =>
    match List.lookup p.1 newm with
    | some v => (p.1, v)
    | none => p) ++
  newm.filter (fun q => !((oldm.map Prod.fst).contains q.1))

/-- The `newCallMapping` object built in `_saveCampaignMetadata` by
    iterating `stats.createdCalls` and assigning one key per call id. -/
def newCallMapping (createdCalls : List CreatedCall) : List (String × MappingEntry) :=
  createdCalls.foldl (fun m c => objSet m c.callId ⟨c.endpoint, c.additionalData⟩) []

/-- `_saveCampaignMetadata`: merge the run's created calls into the existing
    campaign record for the same source file (append call ids, spread-merge
    the mapping, set `totalCalls` to the new `callIds.length`), or create a
    fresh record with `totalCalls = stats.successful = createdCalls.length`. -/
def saveCampaignMetadata (existing : Option Campaign) (createdCalls : List CreatedCall) :
    Campaign :=
  match existing with
  | some c =>
      let callIds := c.callIds ++ createdCalls.map (fun c => c.callId)
      { totalCalls := callIds.length
        callIds := callIds
        callMapping := objMerge c.callMapping (newCallMapping createdCalls) }
  | none =>
      { totalCalls := createdCalls.length
        callIds := createdCalls.map (fun c => c.callId)
        callMapping := newCallMapping createdCalls }

/-- The new-campaign identifier of `_saveCampaignMetadata`:
    `campaign_` followed by `new Date().toISOString().replace(/[:.]/g, '-')`.
    The only varying input is the millisecond-resolution ISO timestamp the
    clock returns, so the identifier is a deterministic function of the
    clock tick. -/
def mkCampaignId (isoTimestamp : String) : String :=
  "campaign_" ++
    String.mk (isoTimestamp.data.map (fun c => if c = ':' ∨ c = '.' then '-' else c))

end BatchCaller

namespace CampaignWatcher

/-- The internal status taxonomy used by the watcher's stats keys. -/
inductive Status where
  | completed
  | running
  | queued
  | pending
  | created
  | failed
  | canceled
  | unknown
deriving DecidableEq

/-- `mapApiStatusToInternal`: lowercase the remote status string and map the
    seven recognized values; anything else (or a missing/non-string value)
    maps to `unknown`. -/
def mapApiStatusToInternal (callStatus : Option String) : Status :=
  match callStatus with
  | none => .unknown
  | some s =>
    let normalized := String.mk (s.data.map Char.toLower)
    if normalized = "completed" then .completed
    else if normalized = "running" then .running
    else if normalized = "queued" then .queued
    else if normalized = "failed" then .failed
    else if normalized = "canceled" then .canceled
    else if normalized = "created" then .created
    else if normalized = "pending" then .pending
    else .unknown

/-- One result row of the call-results search response. -/
structure ApiResult where
  callId : String
  endpoint : Option String := none
  callStatus : Option String := none
  createdTime : Option String := none
  completedTime : Option String := none
  durationSeconds : Option Int := none
  serverJobId : Option String := none
  inspectorUrl : Option String := none
deriving DecidableEq

/-- A stored `callStates` entry (the `mappedCall` shape, with the endpoint
    fallback chain applied at store time). -/
structure CallInfo where
  callId : String
  endpoint : Option String := none
  status : Status := .unknown
  createdTime : Option String := none
  completedTime : Option String := none
  durationSeconds : Option Int := none
  serverJobId : Option String := none
  inspectorUrl : String := ""
deriving DecidableEq

/-- An activity-feed entry; the wall-clock `timestamp` field of the source is
    omitted since no claim depends on it. -/
structure ActivityEvent where
  callId : String
  endpoint : String
  oldStatus : Option Status := none
  newStatus : Status
  durationSeconds : Option Int := none
deriving DecidableEq

/-- The per-status counters of `this.stats`; `created` may go negative when
    the campaign total undercounts, since JS subtraction is unchecked, so all
    counters are integers.  `startTime` and `lastUpdateTime` are the
    epoch-milliseconds fields that `recalculateStats` leaves untouched. -/
structure WStats where
  completed : Int := 0
  running : Int := 0
  queued : Int := 0
  pending : Int := 0
  created : Int := 0
  failed : Int := 0
  canceled : Int := 0
  unknown : Int := 0
  startTime : Int := 0
  lastUpdateTime : Int := 0
deriving DecidableEq

/-- The campaign record as the watcher reads it. -/
structure WCampaign where
  totalCalls : Int
  callIds : List String
  callMapping : List (String × BatchCaller.MappingEntry)
deriving DecidableEq

/-- The watcher's session state: the CallState map (an insertion-ordered
    association list mirroring a JS `Map`), the bounded activity feed, the
    stats counters, the pause gate and the first-run flag. -/
structure WatcherState where
  callStates : List (String × CallInfo) := []
  activityFeed : List ActivityEvent := []
  stats : WStats := {}
  isPaused : Bool := false
  firstRun : Bool := true
deriving DecidableEq

/-- `getEndpointFromCampaign`: read the endpoint out of the campaign's
    `callMapping` when present. -/
def getEndpointFromCampaign (campaign : WCampaign) (callId : String) : Option String :=
  match List.lookup callId campaign.callMapping with
  | some e => some e.endpoint
  | none => none

/-- The endpoint fallback chain
    `mappedCall.endpoint || prev?.endpoint || getEndpointFromCampaign(id)`. -/
def endpointChain (campaign : WCampaign) (resultEndpoint : Option String)
    (prev : Option CallInfo) (callId : String) : Option String :=
  match resultEndpoint with
  | some e => some e
  | none =>
    match prev with
    | some p =>
      match p.endpoint with
      | some e => some e
      | none => getEndpointFromCampaign campaign callId
    | none => getEndpointFromCampaign campaign callId

/-- One iteration of the `allResults.forEach` body of `update()`: map the
    result, skip it unless its callId belongs to the campaign, emit an
    activity event when the call is new or its status changed, and upsert the
    CallState entry (JS `Map.set`: overwrite in place or append). -/
def processResult (campaign : WCampaign)
    (acc : List ActivityEvent × List (String × CallInfo)) (result : ApiResult) :
    List ActivityEvent × List (String × CallInfo) :=
  let updates := acc.1
  let callStates := acc.2
  let mappedStatus := mapApiStatusToInternal result.callStatus
  if campaign.callIds.contains result.callId then
    let prev := List.lookup result.callId callStates
    let isNewOrChanged :=
      match prev with
      | none => true
      | some p => decide (p.status ≠ mappedStatus)
    let stored : CallInfo :=
      { callId := result.callId
        endpoint := endpointChain campaign result.endpoint prev result.callId
        status := mappedStatus
        createdTime := result.createdTime
        completedTime := result.completedTime
        durationSeconds := result.durationSeconds
        serverJobId := result.serverJobId
        inspectorUrl := result.inspectorUrl.getD "" }
    let updates1 :=
      if isNewOrChanged then
        updates ++
          [{ callId := result.callId
             endpoint := (endpointChain campaign result.endpoint prev result.callId).getD "Unknown"
             oldStatus := prev.map (fun p => p.status)
             newStatus := mappedStatus
             durationSeconds := result.durationSeconds }]
      else updates
    (updates1, BatchCaller.objSet callStates result.callId stored)
  else
    (updates, callStates)

/-- The per-update fold over all fetched results. -/
def updatesAndStates (campaign : WCampaign) (allResults : List ApiResult)
    (callStates : List (String × CallInfo)) :
    List ActivityEvent × List (String × CallInfo) :=
  allResults.foldl (fun acc r => processResult campaign acc r) ([], callStates)

/-- `this.activityFeed.slice(-10)`: the last ten elements. -/
def lastTen (l : List α) : List α :=
  l.drop (l.length - 10)

/-- Count of CallState entries carrying a given status. -/
def countStatus (s : Status) (m : List (String × CallInfo)) : Int :=
  ((m.filter (fun p => p.2.status = s)).length : Int)

/-- One counter increment of the `this.callStates.forEach` loop in
    `recalculateStats`. -/
def bumpStatus (st : WStats) (s : Status) : WStats :=
  match s with
  | .completed => { st with completed := st.completed + 1 }
  | .running => { st with running := st.running + 1 }
  | .queued => { st with queued := st.queued + 1 }
  | .pending => { st with pending := st.pending + 1 }
  | .created => { st with created := st.created + 1 }
  | .failed => { st with failed := st.failed + 1 }
  | .canceled => { st with canceled := st.canceled + 1 }
  | .unknown => { st with unknown := st.unknown + 1 }

/-- `recalculateStats`: zero every numeric counter except `startTime` and
    `lastUpdateTime`, recount from the CallState map, then add the
    unprocessed count `campaign.totalCalls - callStates.size` to `created`. -/
def recalculateStats (campaignTotalCalls : Int)
    (callStates : List (String × CallInfo)) (old : WStats) : WStats :=
  let zeroed : WStats :=
    { old with completed := 0, running := 0, queued := 0, pending := 0,
               created := 0, failed := 0, canceled := 0, unknown := 0 }
  let counted := callStates.foldl (fun st p => bumpStatus st p.2.status) zeroed
  { counted with
      created := counted.created + (campaignTotalCalls - (callStates.length : Int)) }

/-- A call-results search response page: the rows plus the two optional
    pagination fields the loop inspects. -/
structure Response where
  results : List ApiResult := []
  totalPages : Option Nat := none
  totalCount : Option Nat := none
deriving DecidableEq

/-- The total-page bound recomputed after each page fetch: the reported
    `totalPages` when present, else `max 1 (ceil (totalCount / pageSize))`,
    else `currentPage + 1` (the fail-safe that stops after this page). -/
def effTotalPages (pageSize currentPage : Nat) (data : Response) : Nat :=
  match data.totalPages with
  | some tp => tp
  | none =>
    match data.totalCount with
    | some tc => max 1 ((tc + pageSize - 1) / pageSize)
    | none => currentPage + 1

/-- Result of running the pagination loop: the accumulated rows and the
    number of pages fetched, a fetch error (any page request throwing), or
    fuel exhaustion (the loop still running after `fuel` fetches). -/
inductive PageResult where
  | ok (results : List ApiResult) (pages : Nat)
  | fetchError
  | fuelOut
deriving DecidableEq

/-- The `do ... while (currentPage < totalPages)` pagination loop of
    `update()`, one fuel unit per page fetch. -/
def paginate (resp : Nat → Except Unit Response) (pageSize : Nat) :
    Nat → Nat → List ApiResult → PageResult
  | 0, _, _ => .fuelOut
  | fuel + 1, currentPage, acc =>
    match resp currentPage with
    | .error _ => .fetchError
    | .ok data =>
      let acc1 := acc ++ data.results
      let totalPages := effTotalPages pageSize currentPage data
      let nextPage := currentPage + 1
      if nextPage < totalPages then paginate resp pageSize fuel nextPage acc1
      else .ok acc1 nextPage

/-- The state transformation of a successful `update()` pass: fold the
    results, append any emitted events and keep the last ten, recompute the
    stats, stamp `lastUpdateTime`, clear `firstRun`. -/
def applyResults (campaign : WCampaign) (now : Int) (allResults : List ApiResult)
    (st : WatcherState) : WatcherState :=
  let folded := updatesAndStates campaign allResults st.callStates
  let updates := folded.1
  let callStates := folded.2
  let activityFeed :=
    if updates.length > 0 then lastTen (st.activityFeed ++ updates)
    else st.activityFeed
  let stats0 := recalculateStats campaign.totalCalls callStates st.stats
  { st with
      callStates := callStates
      activityFeed := activityFeed
      stats := { stats0 with lastUpdateTime := now }
      firstRun := false }

/-- `update()`: a no-op when paused; on any fetch error the catch block only
    logs, leaving every piece of session state untouched; on success the
    fetched rows are reconciled.  (`fuelOut` cannot arise in runs the claims
    quantify over and is mapped to the unchanged state.) -/
def update (campaign : WCampaign) (resp : Nat → Except Unit Response)
    (pageSize fuel : Nat) (now : Int) (st : WatcherState) : WatcherState :=
  if st.isPaused then st
  else
    match paginate resp pageSize fuel 0 [] with
    | .fetchError => st
    | .fuelOut => st
    | .ok allResults _ => applyResults campaign now allResults st

/-- The events emitted by a sequence of successful update passes, oldest to
    newest. -/
def emittedSeq (campaign : WCampaign) (now : Int) :
    List (List ApiResult) → WatcherState → List ActivityEvent
  | [], _ => []
  | rs :: rest, st =>
    (updatesAndStates campaign rs st.callStates).1 ++
      emittedSeq campaign now rest (applyResults campaign now rs st)

/-- An hour-and-minute pair of a schedule range boundary. -/
structure HourMinute where
  hour : Int
  minute : Int
deriving DecidableEq

/-- One schedule range; `stop` models the JS `end` field. -/
structure TimeRange where
  start : HourMinute
  stop : HourMinute
deriving DecidableEq

/-- An agent schedule: day-keyed lists of ranges, keys spelled in any of the
    accepted conventions (JS object modelled as an association list). -/
def Sched := List (String × List TimeRange)

def startMinutes (r : TimeRange) : Int := r.start.hour * 60 + r.start.minute

def endMinutes (r : TimeRange) : Int := r.stop.hour * 60 + r.stop.minute

/-- The `threeToFull` table of `getScheduleForDay`. -/
def threeToFull : String → Option String
  | "Sun" => some "sunday"
  | "Mon" => some "monday"
  | "Tue" => some "tuesday"
  | "Wed" => some "wednesday"
  | "Thu" => some "thursday"
  | "Fri" => some "friday"
  | "Sat" => some "saturday"
  | _ => none

/-- JS `toLowerCase` on an ASCII day key. -/
def jsToLower (s : String) : String :=
  String.mk (s.data.map Char.toLower)

/-- `getScheduleForDay`: direct three-letter key, then lowercase three-letter,
    then full lowercase name, else the empty list. -/
def getScheduleForDay (sched : Sched) (dayThreeLetter : String) : List TimeRange :=
  match List.lookup dayThreeLetter sched with
  | some l => l
  | none =>
    match List.lookup (jsToLower dayThreeLetter) sched with
    | some l => l
    | none =>
      match threeToFull dayThreeLetter with
      | some full =>
        match List.lookup full sched with
        | some l => l
        | none => []
      | none => []

/-- Instants are minutes since an epoch aligned to a Sunday midnight UTC; a
    timezone is its fixed offset from UTC in minutes.  The weekday index
    (0 = Sunday) of an instant viewed in a timezone. -/
def localDayIndex (offset t : Int) : Int :=
  ((t + offset).fdiv 1440) % 7

/-- Minute-of-day of an instant viewed in a timezone. -/
def localMinuteOfDay (offset t : Int) : Int :=
  (t + offset) % 1440

/-- The `dayNames` array indexed by weekday. -/
def dayName (idx : Int) : String :=
  ["Sun", "Mon", "Tue", "Wed", "Thu", "Fri", "Sat"].getD idx.toNat "Sun"

/-- The absolute instant of `nextTime`: the JS code takes the current local
    date, moves it `i` days ahead, and sets local hours/minutes to the range
    start, all on the clock given by `offset`. -/
def windowInstant (offset t i : Int) (hm : HourMinute) : Int :=
  ((t + offset).fdiv 1440 + i) * 1440 + (hm.hour * 60 + hm.minute) - offset

/-- The next-window outcome: a concrete opening instant or the
    no-upcoming-schedule report. -/
inductive NextWindow where
  | window (instant : Int)
  | noUpcoming
deriving DecidableEq

/-- The `for (let i = 1; i <= 7; i++)` scan of `findNextAvailableWindow`,
    iterating over the given day offsets. -/
def scanDays (sched : Sched) (offset t : Int) : List Int → NextWindow
  | [] => .noUpcoming
  | i :: rest =>
    let dayIdx := (localDayIndex offset t + i) % 7
    match getScheduleForDay sched (dayName dayIdx) with
    | [] => scanDays sched offset t rest
    | r :: _ => .window (windowInstant offset t i r.start)

/-- `findNextAvailableWindow`: scan today's remaining ranges, then the next
    seven days.  Note that the source computes day and minute with
    `getDay()/getHours()/getMinutes()`, i.e. on the process-local clock, so
    `offset` here is the system timezone offset, not the schedule's. -/
def findNextAvailableWindow (sched : Sched) (offset t : Int) : NextWindow :=
  let currentTimeMinutes := localMinuteOfDay offset t
  let todaySchedule := getScheduleForDay sched (dayName (localDayIndex offset t))
  match todaySchedule.find? (fun r => decide (startMinutes r > currentTimeMinutes)) with
  | some r => .window (windowInstant offset t 0 r.start)
  | none => scanDays sched offset t [1, 2, 3, 4, 5, 6, 7]

/-- The `isWithinSchedule` return value. -/
structure ScheduleCheck where
  isOpen : Bool
  nextWindow : Option NextWindow
deriving DecidableEq

/-- `isWithinSchedule`: no schedule means always open; otherwise test each of
    today's ranges (weekday and minute-of-day taken in the agent's timezone
    via the Intl formatter, `agentOffset`) with `start <= now < end`; when
    closed, delegate to `findNextAvailableWindow`, which runs on the
    process-local clock (`sysOffset`). -/
def isWithinSchedule (schedule : Option Sched) (agentOffset sysOffset t : Int) :
    ScheduleCheck :=
  match schedule with
  | none => { isOpen := true, nextWindow := none }
  | some sched =>
    let currentTimeMinutes := localMinuteOfDay agentOffset t
    let todaySchedule := getScheduleForDay sched (dayName (localDayIndex agentOffset t))
    if todaySchedule.any (fun r =>
        decide (startMinutes r ≤ currentTimeMinutes) &&
        decide (currentTimeMinutes < endMinutes r)) then
      { isOpen := true, nextWindow := none }
    else
      { isOpen := false, nextWindow := some (findNextAvailableWindow sched sysOffset t) }

/-- Modelled from the spec: when closed, scan the remaining ranges later
    today (the first configured range starting after the current minute);
    if none, take the first of the next seven days that has a range and use
    its first range's start; else report no upcoming schedule — with day,
    minute-of-day and the resulting instant all taken on the clock given by
    `offset`. -/
def specNextWindow (sched : Sched) (offset t : Int) : NextWindow :=
  let currentTimeMinutes := localMinuteOfDay offset t
  let todaySchedule := getScheduleForDay sched (dayName (localDayIndex offset t))
  match (todaySchedule.filter (fun r => decide (startMinutes r > currentTimeMinutes))).head? with
  | some r => .window (windowInstant offset t 0 r.start)
  | none =>
    match ([1, 2, 3, 4, 5, 6, 7].filter (fun i =>
        !(getScheduleForDay sched (dayName ((localDayIndex offset t + i) % 7))).isEmpty)).head? with
    | some i =>
      match getScheduleForDay sched (dayName ((localDayIndex offset t + i) % 7)) with
      | r :: _ => .window (windowInstant offset t i r.start)
      | [] => .noUpcoming
    | none => .noUpcoming

/-- Modelled from the spec: `isOpen` with every step — the open test and the
    next-window computation — taken in the schedule's timezone. -/
def specIsOpen (schedule : Option Sched) (agentOffset t : Int) : ScheduleCheck :=
  match schedule with
  | none => { isOpen := true, nextWindow := none }
  | some sched =>
    let currentTimeMinutes := localMinuteOfDay agentOffset t
    let todaySchedule := getScheduleForDay sched (dayName (localDayIndex agentOffset t))
    if todaySchedule.any (fun r =>
        decide (startMinutes r ≤ currentTimeMinutes) &&
        decide (currentTimeMinutes < endMinutes r)) then
      { isOpen := true, nextWindow := none }
    else
      { isOpen := false, nextWindow := some (specNextWindow sched agentOffset t) }

end CampaignWatcher

namespace BatchCaller

theorem chunkAux_nil (batchSize fuel : Nat) :
    chunkAux batchSize fuel ([] : List α) = [] := by
  cases fuel <;> rfl

theorem chunkAux_cons (batchSize fuel : Nat) (a : α) (l : List α) :
    chunkAux batchSize (fuel + 1) (a :: l) =
      (a :: l).take batchSize :: chunkAux batchSize fuel ((a :: l).drop batchSize) := rfl

/-- With enough fuel the fuel parameter is irrelevant. -/
theorem chunkAux_fuel (batchSize : Nat) (hB : 1 ≤ batchSize) :
    ∀ fuel₁ fuel₂ (l : List α), l.length ≤ fuel₁ → l.length ≤ fuel₂ →
      chunkAux batchSize fuel₁ l = chunkAux batchSize fuel₂ l := by
  intro fuel₁
  induction fuel₁ with
  | zero =>
    intro fuel₂ l h₁ _
    have : l = [] := List.length_eq_zero.mp (Nat.le_zero.mp h₁)
    subst this
    simp [chunkAux_nil]
  | succ f ih =>
    intro fuel₂ l h₁ h₂
    cases l with
    | nil => simp [chunkAux_nil]
    | cons a t =>
      cases fuel₂ with
      | zero => simp at h₂
      | succ f₂ =>
        rw [chunkAux_cons, chunkAux_cons]
        congr 1
        apply ih
        · have : ((a :: t).drop batchSize).length = (a :: t).length - batchSize := by
            simp [List.length_drop]
          simp only [List.length_drop] at *
          omega
        · simp only [List.length_drop] at *
          omega

/-- The concatenation of the batches is the original list. -/
theorem flatten_chunkAux (batchSize : Nat) (hB : 1 ≤ batchSize) :
    ∀ fuel (l : List α), l.length ≤ fuel → (chunkAux batchSize fuel l).flatten = l := by
  intro fuel
  induction fuel with
  | zero =>
    intro l h
    have : l = [] := List.length_eq_zero.mp (Nat.le_zero.mp h)
    subst this; rfl
  | succ f ih =>
    intro l h
    cases l with
    | nil => rfl
    | cons a t =>
      rw [chunkAux_cons]
      simp only [List.flatten_cons]
      rw [ih]
      · exact List.take_append_drop _ _
      · simp only [List.length_drop, List.length_cons] at *
        omega

/-- Every batch has size at most `batchSize`. -/
theorem mem_chunkAux_length_le (batchSize : Nat) :
    ∀ fuel (l : List α) (c : List α), c ∈ chunkAux batchSize fuel l → c.length ≤ batchSize := by
  intro fuel
  induction fuel with
  | zero => intro l c h; simp [chunkAux] at h
  | succ f ih =>
    intro l c h
    cases l with
    | nil => simp [chunkAux_nil] at h
    | cons a t =>
      rw [chunkAux_cons] at h
      rcases List.mem_cons.mp h with h | h
      · subst h
        simp only [List.length_take]
        omega
      · exact ih _ _ h

/-- The number of batches is `ceil(len / batchSize)`, i.e. `(len + B - 1) / B`. -/
theorem length_chunkAux (batchSize : Nat) (hB : 1 ≤ batchSize) :
    ∀ fuel (l : List α), l.length ≤ fuel →
      (chunkAux batchSize fuel l).length = (l.length + batchSize - 1) / batchSize := by
  intro fuel
  induction fuel with
  | zero =>
    intro l h
    have : l = [] := List.length_eq_zero.mp (Nat.le_zero.mp h)
    subst this
    simp only [chunkAux_nil, List.length_nil, Nat.zero_add]
    exact (Nat.div_eq_of_lt (by omega)).symm
  | succ f ih =>
    intro l h
    cases l with
    | nil =>
      simp only [chunkAux_nil, List.length_nil, Nat.zero_add]
      exact (Nat.div_eq_of_lt (by omega)).symm
    | cons a t =>
      rw [chunkAux_cons]
      simp only [List.length_cons]
      rw [ih]
      · simp only [List.length_drop, List.length_cons]
        rcases Nat.le_total batchSize (t.length + 1) with hle | hlt
        · have hrw : t.length + 1 + batchSize - 1 = (t.length + 1 - batchSize + batchSize - 1) + batchSize := by
            omega
          rw [hrw, Nat.add_div_right _ (by omega)]
        · have h1 : t.length + 1 - batchSize = 0 := by omega
          rw [h1]
          simp only [Nat.zero_add]
          have h2 : (batchSize - 1) / batchSize = 0 := Nat.div_eq_of_lt (by omega)
          rw [h2]
          have h3 : (t.length + 1 + batchSize - 1) / batchSize = 1 :=
            Nat.div_eq_of_lt_le (by omega) (by omega)
          omega
      · simp only [List.length_drop, List.length_cons] at *
        omega

/-- Every batch except possibly the last has size exactly `batchSize`. -/
theorem dropLast_chunkAux_length (batchSize : Nat) :
    ∀ fuel (l : List α) (c : List α),
      c ∈ (chunkAux batchSize fuel l).dropLast → c.length = batchSize := by
  intro fuel
  induction fuel with
  | zero => intro l c h; simp [chunkAux] at h
  | succ f ih =>
    intro l c h
    cases l with
    | nil => simp [chunkAux_nil] at h
    | cons a t =>
      rw [chunkAux_cons] at h
      cases hrest : chunkAux batchSize f ((a :: t).drop batchSize) with
      | nil => rw [hrest] at h; simp at h
      | cons r rs =>
        rw [hrest] at h
        rw [List.dropLast_cons_of_ne_nil (by simp)] at h
        rcases List.mem_cons.mp h with h | h
        · subst h
          -- the recursive chunk list is nonempty, so the remainder is nonempty,
          -- hence the cons list has length > batchSize and `take` is full
          have hne : (a :: t).drop batchSize ≠ [] := by
            intro hnil
            rw [hnil, chunkAux_nil] at hrest
            exact List.noConfusion hrest
          have hlen : batchSize < (a :: t).length := by
            by_contra hcon
            push_neg at hcon
            exact hne (List.drop_eq_nil_of_le hcon)
          rw [List.length_take]
          simp only [List.length_cons] at hlen ⊢
          omega
        · rw [← hrest] at h
          exact ih _ _ h

theorem filtered_sum_shift (p : Nat → Bool) (g : Nat → Nat) (k : Nat) :
    (((List.range (k + 1)).filter p).map g).sum =
      (if p 0 then g 0 else 0) +
        (((List.range k).filter (fun j => p (j + 1))).map (fun j => g (j + 1))).sum := by
  rw [List.range_succ_eq_map]
  rw [List.filter_cons]
  split
  · simp only [List.map_cons, List.sum_cons, List.filter_map, List.map_map]
    rfl
  · simp only [List.filter_map, List.map_map, Nat.zero_add]
    rfl

theorem processBatchesAux_fatal_submitted (outcome : Nat → BatchOutcome) :
    ∀ (k : Nat) (bs : List (List α)) (i : Nat) (st : RunStats),
      k < bs.length →
      isFatalOutcome (outcome (i + k)) = true →
      (∀ j, j < k → isFatalOutcome (outcome (i + j)) = false) →
      (processBatchesAux outcome bs i st).submitted =
        st.submitted ++ (List.range (k + 1)).map (i + ·) := by
  intro k
  induction k with
  | zero =>
    intro bs i st hk hfatal _
    cases bs with
    | nil => simp at hk
    | cons b rest =>
      simp only [Nat.add_zero] at hfatal
      cases hout : outcome i with
      | success n => rw [hout] at hfatal; simp [isFatalOutcome] at hfatal
      | failure s =>
        rw [hout] at hfatal
        simp only [isFatalOutcome] at hfatal
        simp [processBatchesAux, hout, hfatal, List.range_succ]
  | succ k ih =>
    intro bs i st hk hfatal hprev
    cases bs with
    | nil => simp at hk
    | cons b rest =>
      have hnotfatal : isFatalOutcome (outcome i) = false := by
        have := hprev 0 (Nat.succ_pos k)
        simpa using this
      have hrec : ∀ (st' : RunStats),
          (processBatchesAux outcome rest (i + 1) st').submitted =
            st'.submitted ++ (List.range (k + 1)).map ((i + 1) + ·) := by
        intro st'
        apply ih rest (i + 1) st'
        · simpa using hk
        · have : i + 1 + k = i + (k + 1) := by omega
          rw [this]; exact hfatal
        · intro j hj
          have : i + 1 + j = i + (j + 1) := by omega
          rw [this]; exact hprev (j + 1) (by omega)
      have hrange : (List.range (k + 1 + 1)).map (i + ·) =
          i :: (List.range (k + 1)).map ((i + 1) + ·) := by
        rw [List.range_succ_eq_map]
        simp only [List.map_cons, Nat.add_zero, List.map_map]
        congr 1
        apply List.map_congr_left
        intro j _
        simp only [Function.comp]
        omega
      cases hout : outcome i with
      | success n =>
        simp only [processBatchesAux, hout]
        rw [hrec]
        simp [hrange]
      | failure s =>
        have hs : isFatalStatus s = false := by
          rw [hout] at hnotfatal; simpa [isFatalOutcome] using hnotfatal
        simp only [processBatchesAux, hout]
        rw [if_neg (by simp [hs])]
        rw [hrec]
        simp [hrange]

theorem processBatchesAux_fatal_failed (outcome : Nat → BatchOutcome) :
    ∀ (k : Nat) (bs : List (List α)) (i : Nat) (st : RunStats),
      k < bs.length →
      isFatalOutcome (outcome (i + k)) = true →
      (∀ j, j < k → isFatalOutcome (outcome (i + j)) = false) →
      (processBatchesAux outcome bs i st).failed =
        st.failed + (bs.getD k []).length +
          (((List.range k).filter (fun j => isTransientOutcome (outcome (i + j)))).map
            (fun j => (bs.getD j []).length)).sum := by
  intro k
  induction k with
  | zero =>
    intro bs i st hk hfatal _
    cases bs with
    | nil => simp at hk
    | cons b rest =>
      simp only [Nat.add_zero] at hfatal
      cases hout : outcome i with
      | success n => rw [hout] at hfatal; simp [isFatalOutcome] at hfatal
      | failure s =>
        rw [hout] at hfatal
        simp only [isFatalOutcome] at hfatal
        simp [processBatchesAux, hout, hfatal]
  | succ k ih =>
    intro bs i st hk hfatal hprev
    cases bs with
    | nil => simp at hk
    | cons b rest =>
      have hnotfatal : isFatalOutcome (outcome i) = false := by
        have := hprev 0 (Nat.succ_pos k)
        simpa using this
      have hrec : ∀ (st' : RunStats),
          (processBatchesAux outcome rest (i + 1) st').failed =
            st'.failed + (rest.getD k []).length +
              (((List.range k).filter (fun j => isTransientOutcome (outcome (i + 1 + j)))).map
                (fun j => (rest.getD j []).length)).sum := by
        intro st'
        apply ih rest (i + 1) st'
        · simpa using hk
        · have : i + 1 + k = i + (k + 1) := by omega
          rw [this]; exact hfatal
        · intro j hj
          have : i + 1 + j = i + (j + 1) := by omega
          rw [this]; exact hprev (j + 1) (by omega)
      have hsum : (((List.range (k + 1)).filter
            (fun j => isTransientOutcome (outcome (i + j)))).map
            (fun j => ((b :: rest).getD j []).length)).sum =
          (if isTransientOutcome (outcome i) then b.length else 0) +
            (((List.range k).filter (fun j => isTransientOutcome (outcome (i + 1 + j)))).map
              (fun j => (rest.getD j []).length)).sum := by
        rw [filtered_sum_shift (fun j => isTransientOutcome (outcome (i + j)))
              (fun j => ((b :: rest).getD j []).length) k]
        have e1 : (List.range k).filter (fun j => isTransientOutcome (outcome (i + (j + 1)))) =
            (List.range k).filter (fun j => isTransientOutcome (outcome (i + 1 + j))) := by
          apply List.filter_congr
          intro j _
          have e : i + (j + 1) = i + 1 + j := by omega
          rw [e]
        simp only [Nat.add_zero, List.getD_cons_zero]
        rw [e1]
        congr 1
      cases hout : outcome i with
      | success n =>
        simp only [processBatchesAux, hout]
        rw [hrec]
        simp only [List.getD_cons_succ]
        rw [hsum]
        have htr : isTransientOutcome (outcome i) = false := by
          rw [hout]; rfl
        rw [htr, if_neg (by simp)]
        omega
      | failure s =>
        have hs : isFatalStatus s = false := by
          rw [hout] at hnotfatal; simpa [isFatalOutcome] using hnotfatal
        simp only [processBatchesAux, hout]
        rw [if_neg (by simp [hs])]
        rw [hrec]
        simp only [List.getD_cons_succ]
        rw [hsum]
        have htr : isTransientOutcome (outcome i) = true := by
          rw [hout]; simp [isTransientOutcome, hs]
        rw [htr, if_pos rfl]
        omega

/-- Claim C2: for every list of calls and every positive batch size B,
    `_processBatches` partitions the list into exactly ceil(N/B) consecutive
    chunks, each of size at most B, only the last possibly smaller, and the
    concatenation of the chunks is the input list in original order. -/
theorem batch_partition_correct (batchSize : Nat) (hB : 1 ≤ batchSize) (calls : List α) :
    (makeBatches batchSize calls).length = (calls.length + batchSize - 1) / batchSize ∧
    (makeBatches batchSize calls).flatten = calls ∧
    (∀ c ∈ makeBatches batchSize calls, c.length ≤ batchSize) ∧
    (∀ c ∈ (makeBatches batchSize calls).dropLast, c.length = batchSize) := by
  refine ⟨?_, ?_, ?_, ?_⟩
  · exact length_chunkAux batchSize hB calls.length calls le_rfl
  · exact flatten_chunkAux batchSize hB calls.length calls le_rfl
  · intro c hc; exact mem_chunkAux_length_le batchSize calls.length calls c hc
  · intro c hc; exact dropLast_chunkAux_length batchSize calls.length calls c hc

/-- Witness for `batch_partition_correct`: batch size 2 on a five-element list
    gives three chunks whose concatenation is the input. -/
theorem batch_partition_correct_witness :
    (1 ≤ 2) ∧ (makeBatches 2 [0, 1, 2, 3, 4]).flatten = [0, 1, 2, 3, 4] ∧
      (makeBatches 2 [0, 1, 2, 3, 4]).length = 3 :=
  ⟨by decide, (batch_partition_correct 2 (by decide) [0, 1, 2, 3, 4]).2.1,
    ((batch_partition_correct 2 (by decide) [0, 1, 2, 3, 4]).1).trans (by decide)⟩

/-- Claim C1, counterexample: six calls in three chunks of two, fatal 403 on
    chunk index 0.  Chunks 1 and 2 are not submitted, and the failed counter
    is 2 (only the aborted chunk), not the 6 the claim demands (sum of the
    chunk sizes from the aborted chunk onward). -/
theorem fatal_abort_failed_count_counterexample :
    (processBatches 2 [0, 1, 2, 3, 4, 5]
        (fun _ => BatchOutcome.failure (some 403))).submitted = [0] ∧
    (processBatches 2 [0, 1, 2, 3, 4, 5]
        (fun _ => BatchOutcome.failure (some 403))).failed = 2 ∧
    ¬ (processBatches 2 [0, 1, 2, 3, 4, 5]
        (fun _ => BatchOutcome.failure (some 403))).failed = 2 + 2 + 2 := by
  decide

/-- Claim C1, amended: if chunk k is the first to fail with a fatal status
    (401, 403 or 404), exactly chunks 0..k are submitted (none after k), and
    the failed counter equals the size of the aborted chunk plus the sizes of
    the earlier transiently failed chunks; chunks after the aborted one are
    not counted. -/
theorem fatal_abort_spec (batchSize : Nat) (calls : List α)
    (outcome : Nat → BatchOutcome) (k : Nat)
    (hk : k < (makeBatches batchSize calls).length)
    (hfatal : isFatalOutcome (outcome k) = true)
    (hprev : ∀ j, j < k → isFatalOutcome (outcome j) = false) :
    (processBatches batchSize calls outcome).submitted = List.range (k + 1) ∧
    (processBatches batchSize calls outcome).failed =
      ((makeBatches batchSize calls).getD k []).length +
        transientFailedSizes outcome (makeBatches batchSize calls) k := by
  constructor
  · have h := processBatchesAux_fatal_submitted outcome k (makeBatches batchSize calls) 0
      {} hk (by simpa using hfatal) (fun j hj => by simpa using hprev j hj)
    simpa [processBatches] using h
  · have h := processBatchesAux_fatal_failed outcome k (makeBatches batchSize calls) 0
      {} hk (by simpa using hfatal) (fun j hj => by simpa using hprev j hj)
    simpa [processBatches, transientFailedSizes] using h

/-- Witness for `fatal_abort_spec`: chunk 0 fails transiently (500), chunk 1
    fails fatally (403); chunks 0 and 1 are submitted, chunk 2 is not, and the
    failed counter is 2 + 2 = 4. -/
theorem fatal_abort_spec_witness :
    (processBatches 2 [0, 1, 2, 3, 4, 5]
        (fun j => if j = 0 then BatchOutcome.failure (some 500)
                  else BatchOutcome.failure (some 403))).submitted = [0, 1] ∧
    (processBatches 2 [0, 1, 2, 3, 4, 5]
        (fun j => if j = 0 then BatchOutcome.failure (some 500)
                  else BatchOutcome.failure (some 403))).failed = 4 := by
  have h := fatal_abort_spec 2 [0, 1, 2, 3, 4, 5]
      (fun j => if j = 0 then BatchOutcome.failure (some 500)
                else BatchOutcome.failure (some 403)) 1
      (by decide) (by decide) (by decide)
  exact ⟨h.1.trans (by decide), h.2.trans (by decide)⟩

end BatchCaller

namespace ConcurrencyUtils

/-- Claim C6: the concurrency classification follows the spec's stated
    precedence for all integer inputs, and in particular
    `calculateUtilizationPct 0 0 = 0`, `getConcurrencyLevel 0 0 = disabled`,
    (35, 50) is warning at 70 percent, (48, 50) is critical at 96 percent, and
    active 60 with allowed 50 is critical. -/
theorem concurrency_level_spec :
    (∀ active concurrency : Int,
        getConcurrencyLevel active concurrency = specConcurrencyLevel active concurrency) ∧
    calculateUtilizationPct 0 0 = 0 ∧
    getConcurrencyLevel 0 0 = Level.disabled ∧
    calculateUtilizationPct 35 50 = 70 ∧
    getConcurrencyLevel 35 50 = Level.warning ∧
    calculateUtilizationPct 48 50 = 96 ∧
    getConcurrencyLevel 48 50 = Level.critical ∧
    getConcurrencyLevel 60 50 = Level.critical := by
  refine ⟨?_, by decide, by decide, by decide, by decide, by decide, by decide, by decide⟩
  intro active concurrency
  by_cases hc : concurrency ≤ 0
  · simp [getConcurrencyLevel, specConcurrencyLevel, hc]
  · by_cases ha : 0 ≤ active
    · simp [getConcurrencyLevel, specConcurrencyLevel, calculateUtilizationPct, hc, ha]
    · have h0 : ¬ active > concurrency := by omega
      have h0' : ¬ (0 : Int) > concurrency := by omega
      simp [getConcurrencyLevel, specConcurrencyLevel, calculateUtilizationPct, hc, ha, h0, h0']

end ConcurrencyUtils

namespace BatchCaller

theorem lookup_eq_none_of_not_mem_keys {β : Type} (k : String) :
    ∀ (m : List (String × β)), k ∉ m.map Prod.fst → List.lookup k m = none := by
  intro m
  induction m with
  | nil => intro _; rfl
  | cons p t ih =>
    obtain ⟨k1, v⟩ := p
    intro h
    simp only [List.map_cons, List.mem_cons] at h
    push_neg at h
    have hne : (k == k1) = false := by
      simp only [beq_eq_false_iff_ne, ne_eq]
      exact h.1
    simp [List.lookup, hne, ih h.2]

theorem lookup_append_of_none {β : Type} (k : String) (m1 m2 : List (String × β))
    (h : List.lookup k m1 = none) :
    List.lookup k (m1 ++ m2) = List.lookup k m2 := by
  induction m1 with
  | nil => rfl
  | cons p t ih =>
    obtain ⟨k1, v⟩ := p
    rw [List.lookup_cons] at h
    rw [List.cons_append, List.lookup_cons]
    by_cases hk : k = k1
    · subst hk
      simp only [beq_self_eq_true] at h
      exact Option.noConfusion h
    · have hbeq : (k == k1) = false := beq_eq_false_iff_ne.mpr hk
      simp only [hbeq] at h ⊢
      exact ih h

theorem lookup_append_of_some {β : Type} (k : String) (m1 m2 : List (String × β)) (v : β)
    (h : List.lookup k m1 = some v) :
    List.lookup k (m1 ++ m2) = some v := by
  induction m1 with
  | nil => simp at h
  | cons p t ih =>
    obtain ⟨k1, w⟩ := p
    rw [List.lookup_cons] at h
    rw [List.cons_append, List.lookup_cons]
    by_cases hk : k = k1
    · subst hk
      simp only [beq_self_eq_true] at h ⊢
      exact h
    · have hbeq : (k == k1) = false := beq_eq_false_iff_ne.mpr hk
      simp only [hbeq] at h ⊢
      exact ih h

theorem foldl_objSet_fresh :
    ∀ (run : List CreatedCall) (acc : List (String × MappingEntry)),
      (run.map (fun c => c.callId)).Nodup →
      (∀ c ∈ run, c.callId ∉ acc.map Prod.fst) →
      run.foldl (fun m c => objSet m c.callId ⟨c.endpoint, c.additionalData⟩) acc =
        acc ++ run.map (fun c => (c.callId, ⟨c.endpoint, c.additionalData⟩)) := by
  intro run
  induction run with
  | nil => intro acc _ _; simp
  | cons c t ih =>
    intro acc hnd hfresh
    simp only [List.foldl_cons]
    have hc : c.callId ∉ acc.map Prod.fst := hfresh c (List.mem_cons_self _ _)
    have hset : objSet acc c.callId ⟨c.endpoint, c.additionalData⟩ =
        acc ++ [(c.callId, ⟨c.endpoint, c.additionalData⟩)] := by
      unfold objSet
      rw [if_neg (by simp [List.contains, hc])]
    rw [hset, ih]
    · simp
    · simp only [List.map_cons, List.nodup_cons] at hnd
      exact hnd.2
    · intro d hd
      simp only [List.map_append, List.map_cons, List.map_nil, List.mem_append,
        List.mem_singleton]
      push_neg
      constructor
      · exact hfresh d (List.mem_cons_of_mem _ hd)
      · intro he
        simp only [List.map_cons, List.nodup_cons] at hnd
        exact hnd.1 (he ▸ List.mem_map_of_mem _ hd)

theorem newCallMapping_eq_map (run : List CreatedCall)
    (hnd : (run.map (fun c => c.callId)).Nodup) :
    newCallMapping run = run.map (fun c => (c.callId, ⟨c.endpoint, c.additionalData⟩)) := by
  unfold newCallMapping
  have h := foldl_objSet_fresh run [] hnd (by intro c _; simp)
  simpa using h

theorem objMerge_of_disjoint {β : Type} (a b : List (String × β))
    (hab : ∀ k ∈ a.map Prod.fst, k ∉ b.map Prod.fst)
    (hba : ∀ k ∈ b.map Prod.fst, k ∉ a.map Prod.fst) :
    objMerge a b = a ++ b := by
  unfold objMerge
  congr 1
  · have hmap : ∀ p ∈ a,
        (match List.lookup p.1 b with
         | some v => (p.1, v)
         | none => p) = p := by
      intro p hp
      rw [lookup_eq_none_of_not_mem_keys p.1 b (hab p.1 (List.mem_map_of_mem _ hp))]
    calc a.map (fun p =>
          match List.lookup p.1 b with
          | some v => (p.1, v)
          | none => p) = a.map id := List.map_congr_left hmap
      _ = a := List.map_id a
  · apply List.filter_eq_self.mpr
    intro q hq
    have hnot : q.1 ∉ a.map Prod.fst := hba q.1 (List.mem_map_of_mem _ hq)
    simp [List.contains, hnot]

theorem lookup_map_entry (run : List CreatedCall)
    (hnd : (run.map (fun c => c.callId)).Nodup) :
    ∀ cc ∈ run,
      List.lookup cc.callId
          (run.map (fun c => (c.callId, MappingEntry.mk c.endpoint c.additionalData))) =
        some ⟨cc.endpoint, cc.additionalData⟩ := by
  induction run with
  | nil => intro cc h; simp at h
  | cons c t ih =>
    intro cc hcc
    simp only [List.map_cons]
    rw [List.lookup_cons]
    rcases List.mem_cons.mp hcc with h | h
    · subst h
      simp
    · have hne : (cc.callId == c.callId) = false := by
        rw [beq_eq_false_iff_ne]
        intro he
        simp only [List.map_cons, List.nodup_cons] at hnd
        exact hnd.1 (he ▸ List.mem_map_of_mem _ h)
      simp only [hne]
      apply ih _ cc h
      simp only [List.map_cons, List.nodup_cons] at hnd
      exact hnd.2

end BatchCaller

namespace BatchCaller

/-- Claim C7: merging a second dispatch run into the campaign record created
    by a first run (all created-call ids pairwise distinct) yields
    `totalCalls` equal to the sum of both runs' successful counts, duplicate-free
    `callIds`, and a `callMapping` that retains every entry from both runs. -/
theorem merge_two_runs (run1 run2 : List CreatedCall)
    (h : ((run1 ++ run2).map (fun c => c.callId)).Nodup) :
    (saveCampaignMetadata (some (saveCampaignMetadata none run1)) run2).totalCalls =
        run1.length + run2.length ∧
    (saveCampaignMetadata (some (saveCampaignMetadata none run1)) run2).callIds.Nodup ∧
    ∀ cc ∈ run1 ++ run2,
      List.lookup cc.callId
          (saveCampaignMetadata (some (saveCampaignMetadata none run1)) run2).callMapping =
        some ⟨cc.endpoint, cc.additionalData⟩ := by
  rw [List.map_append] at h
  rcases List.nodup_append.mp h with ⟨h1, h2, hdisj⟩
  have hmap1 := newCallMapping_eq_map run1 h1
  have hmap2 := newCallMapping_eq_map run2 h2
  have hkeys1 : (newCallMapping run1).map Prod.fst = run1.map (fun c => c.callId) := by
    rw [hmap1, List.map_map]; rfl
  have hkeys2 : (newCallMapping run2).map Prod.fst = run2.map (fun c => c.callId) := by
    rw [hmap2, List.map_map]; rfl
  have hmerge : objMerge (newCallMapping run1) (newCallMapping run2) =
      newCallMapping run1 ++ newCallMapping run2 := by
    apply objMerge_of_disjoint
    · intro k hk
      rw [hkeys1] at hk
      rw [hkeys2]
      exact fun hk2 => hdisj hk hk2
    · intro k hk
      rw [hkeys2] at hk
      rw [hkeys1]
      exact fun hk1 => hdisj hk1 hk
  refine ⟨?_, ?_, ?_⟩
  · simp [saveCampaignMetadata]
  · simp only [saveCampaignMetadata]
    rw [List.nodup_append]
    exact ⟨h1, h2, hdisj⟩
  · intro cc hcc
    simp only [saveCampaignMetadata]
    rw [hmerge]
    rcases List.mem_append.mp hcc with hm | hm
    · apply lookup_append_of_some
      rw [hmap1]
      exact lookup_map_entry run1 h1 cc hm
    · rw [lookup_append_of_none]
      · rw [hmap2]
        exact lookup_map_entry run2 h2 cc hm
      · apply lookup_eq_none_of_not_mem_keys
        rw [hkeys1]
        intro hin
        exact hdisj hin (List.mem_map_of_mem _ hm)

/-- Witness for `merge_two_runs`: two one-call runs with distinct ids; the
    merged record has two calls and both mapping entries. -/
theorem merge_two_runs_witness :
    (saveCampaignMetadata (some (saveCampaignMetadata none
        [CreatedCall.mk "a" "+111" none])) [CreatedCall.mk "b" "+222" none]).totalCalls = 2 ∧
    List.lookup "b"
        (saveCampaignMetadata (some (saveCampaignMetadata none
          [CreatedCall.mk "a" "+111" none])) [CreatedCall.mk "b" "+222" none]).callMapping =
      some ⟨"+222", none⟩ := by
  have h := merge_two_runs [CreatedCall.mk "a" "+111" none]
    [CreatedCall.mk "b" "+222" none] (by decide)
  exact ⟨h.1, h.2.2 (CreatedCall.mk "b" "+222" none) (by decide)⟩

/-- Claim C8: the campaign identifier is a deterministic function of the
    millisecond ISO timestamp, so two campaign-record creations within the
    same clock tick produce the same identifier, not distinct ones: at the
    tick whose ISO form is 2025-01-01T00:00:00.000Z both invocations yield
    the literal shown. -/
theorem campaign_id_same_tick_collision :
    mkCampaignId "2025-01-01T00:00:00.000Z" = "campaign_2025-01-01T00-00-00-000Z" ∧
    mkCampaignId "2025-01-01T00:00:00.000Z" = mkCampaignId "2025-01-01T00:00:00.000Z" := by
  constructor
  · decide
  · rfl

end BatchCaller

namespace CampaignWatcher

theorem bumpStatus_created (z : WStats) (s : Status) :
    (bumpStatus z s).created = z.created + (if s = Status.created then 1 else 0) := by
  cases s <;> simp [bumpStatus]

theorem countStatus_cons (s : Status) (p : String × CallInfo) (t : List (String × CallInfo)) :
    countStatus s (p :: t) = countStatus s t + (if p.2.status = s then 1 else 0) := by
  unfold countStatus
  rw [List.filter_cons]
  by_cases hs : p.2.status = s
  · simp [hs]
  · simp [hs]

theorem foldl_bump_created :
    ∀ (m : List (String × CallInfo)) (z : WStats),
      (m.foldl (fun st p => bumpStatus st p.2.status) z).created =
        z.created + countStatus Status.created m := by
  intro m
  induction m with
  | nil => intro z; simp [countStatus]
  | cons p t ih =>
    intro z
    simp only [List.foldl_cons]
    rw [ih, bumpStatus_created, countStatus_cons]
    by_cases hs : p.2.status = Status.created
    · simp only [hs, if_pos rfl]
      omega
    · simp only [if_neg hs]
      omega

/-- Claim C3, counterexample: one observed call whose remote status mapped to
    `created`, campaign `totalCalls = 1`.  After `recalculateStats` the
    created bucket is 1, and observedCount + createdBucket = 2, not
    `totalCalls = 1` as the claim demands. -/
theorem recalculate_stats_counterexample :
    (recalculateStats 1 [("c1", { callId := "c1", status := Status.created })] {}).created = 1 ∧
    ¬ ((1 : Int) +
        (recalculateStats 1 [("c1", { callId := "c1", status := Status.created })] {}).created
       = 1) := by
  decide

/-- Claim C3, amended: after every reconciliation pass, the created bucket
    equals the count of observed calls whose status is `created` plus
    `totalCalls - observedCount` (so every campaign call never observed
    contributes one), and observedCount + createdBucket equals totalCalls
    plus the number of observed calls whose status is `created`; the plain
    equality `observedCount + createdBucket = totalCalls` therefore holds
    exactly when no observed call has status `created`. -/
theorem recalculate_stats_spec (total : Int) (m : List (String × CallInfo)) (old : WStats) :
    (recalculateStats total m old).created =
      countStatus Status.created m + (total - (m.length : Int)) ∧
    (m.length : Int) + (recalculateStats total m old).created =
      total + countStatus Status.created m := by
  unfold recalculateStats
  constructor
  · simp only [foldl_bump_created]
    omega
  · simp only [foldl_bump_created]
    omega

/-- Claim C9: any fetch failure inside `update()` is swallowed and leaves the
    whole session state — CallState map, activity feed, stats counters,
    first-run flag — exactly as it was. -/
theorem update_fetch_error_atomic (campaign : WCampaign)
    (resp : Nat → Except Unit Response) (pageSize fuel : Nat) (now : Int)
    (st : WatcherState)
    (herr : paginate resp pageSize fuel 0 [] = PageResult.fetchError) :
    update campaign resp pageSize fuel now st = st := by
  unfold update
  by_cases hp : st.isPaused
  · simp [hp]
  · simp [hp, herr]

/-- Witness for `update_fetch_error_atomic`: a failing transport leaves a
    nonempty state untouched. -/
theorem update_fetch_error_atomic_witness :
    update ⟨3, ["x"], []⟩ (fun _ => Except.error ()) 100 5 7
        { callStates := [("x", { callId := "x" })], firstRun := true } =
      { callStates := [("x", { callId := "x" })], firstRun := true } :=
  update_fetch_error_atomic ⟨3, ["x"], []⟩ (fun _ => Except.error ()) 100 5 7
    { callStates := [("x", { callId := "x" })], firstRun := true } (by decide)

end CampaignWatcher

namespace CampaignWatcher

theorem paginate_ne_fuelOut (resp : Nat → Except Unit Response) (pageSize B : Nat)
    (hB : ∀ p data, resp p = Except.ok data → effTotalPages pageSize p data ≤ B) :
    ∀ (fuel cp : Nat) (acc : List ApiResult), B ≤ cp + fuel → 1 ≤ fuel →
      paginate resp pageSize fuel cp acc ≠ PageResult.fuelOut := by
  intro fuel
  induction fuel with
  | zero => intro cp acc _ h2; omega
  | succ f ih =>
    intro cp acc hb _
    cases hr : resp cp with
    | error e => simp [paginate, hr]
    | ok data =>
      simp only [paginate, hr]
      split
      · rename_i hlt
        apply ih
        · omega
        · have := hB cp data hr
          omega
      · simp

theorem paginate_const_totalCount (resp : Nat → Except Unit Response) (pageSize c : Nat)
    (results1 : Nat → List ApiResult)
    (hresp : ∀ p, resp p =
      Except.ok { results := results1 p, totalPages := none, totalCount := some c }) :
    ∀ (fuel cp : Nat) (acc : List ApiResult),
      cp < max 1 ((c + pageSize - 1) / pageSize) →
      max 1 ((c + pageSize - 1) / pageSize) ≤ cp + fuel →
      ∃ rs, paginate resp pageSize fuel cp acc =
        PageResult.ok rs (max 1 ((c + pageSize - 1) / pageSize)) := by
  intro fuel
  induction fuel with
  | zero => intro cp acc h1 h2; omega
  | succ f ih =>
    intro cp acc h1 h2
    have heff : effTotalPages pageSize cp
        { results := results1 cp, totalPages := none, totalCount := some c } =
        max 1 ((c + pageSize - 1) / pageSize) := rfl
    simp only [paginate, hresp cp]
    by_cases hlt : cp + 1 < max 1 ((c + pageSize - 1) / pageSize)
    · rw [if_pos (heff ▸ hlt)]
      exact ih (cp + 1) (acc ++ results1 cp) hlt (by omega)
    · rw [if_neg (heff ▸ hlt)]
      have : cp + 1 = max 1 ((c + pageSize - 1) / pageSize) := by omega
      rw [this]
      exact ⟨acc ++ results1 cp, rfl⟩

/-- Claim C4, counterexample: every page carries `totalCount = 0` and no
    `totalPages`.  The claim requires `ceil(totalCount / pageSize) = 0` pages,
    but the do-while loop always fetches one page. -/
theorem pagination_zero_totalCount_counterexample :
    paginate (fun _ => Except.ok { results := [], totalPages := none, totalCount := some 0 })
        100 2 0 [] = PageResult.ok [] 1 ∧
    (0 + 100 - 1) / 100 = 0 := by
  decide

/-- Claim C4, amended: whenever the per-page effective total-page bound is
    bounded by `B`, the pagination loop finishes within `B + 1` page
    fetches; when the responses omit `totalPages` and carry a constant
    `totalCount`, exactly `max 1 (ceil (totalCount / pageSize))` pages are
    fetched; and when they carry neither field, exactly one page is fetched. -/
theorem pagination_spec :
    (∀ (resp : Nat → Except Unit Response) (pageSize B : Nat),
      (∀ p data, resp p = Except.ok data → effTotalPages pageSize p data ≤ B) →
      paginate resp pageSize (B + 1) 0 [] ≠ PageResult.fuelOut) ∧
    (∀ (resp : Nat → Except Unit Response) (pageSize c : Nat)
        (results1 : Nat → List ApiResult),
      1 ≤ pageSize →
      (∀ p, resp p =
        Except.ok { results := results1 p, totalPages := none, totalCount := some c }) →
      ∃ rs, paginate resp pageSize (max 1 ((c + pageSize - 1) / pageSize)) 0 [] =
        PageResult.ok rs (max 1 ((c + pageSize - 1) / pageSize))) ∧
    (∀ (resp : Nat → Except Unit Response) (pageSize fuel : Nat)
        (results1 : Nat → List ApiResult),
      (∀ p, resp p =
        Except.ok { results := results1 p, totalPages := none, totalCount := none }) →
      ∃ rs, paginate resp pageSize (fuel + 1) 0 [] = PageResult.ok rs 1) := by
  refine ⟨?_, ?_, ?_⟩
  · intro resp pageSize B hB
    exact paginate_ne_fuelOut resp pageSize B hB (B + 1) 0 [] (by omega) (by omega)
  · intro resp pageSize c results1 _ hresp
    exact paginate_const_totalCount resp pageSize c results1 hresp
      (max 1 ((c + pageSize - 1) / pageSize)) 0 [] (by omega) (by omega)
  · intro resp pageSize fuel results1 hresp
    refine ⟨results1 0, ?_⟩
    simp [paginate, hresp 0, effTotalPages]

/-- Witness for `pagination_spec`: a three-page bound terminates within four
    fetches; a constant `totalCount = 250` at page size 100 fetches
    `max 1 (ceil (250/100)) = 3` pages; no pagination metadata fetches one. -/
theorem pagination_spec_witness :
    (paginate (fun _ => Except.ok { results := [], totalPages := some 3, totalCount := none })
        100 4 0 [] ≠ PageResult.fuelOut) ∧
    (∃ rs, paginate
        (fun _ => Except.ok { results := [], totalPages := none, totalCount := some 250 })
        100 (max 1 ((250 + 100 - 1) / 100)) 0 [] =
      PageResult.ok rs (max 1 ((250 + 100 - 1) / 100))) ∧
    (∃ rs, paginate
        (fun _ => Except.ok { results := [], totalPages := none, totalCount := none })
        100 1 0 [] = PageResult.ok rs 1) := by
  refine ⟨?_, ?_, ?_⟩
  · exact pagination_spec.1 _ 100 3 (fun p data h => by cases h; exact Nat.le_refl 3)
  · exact pagination_spec.2.1 _ 100 250 (fun _ => []) (by decide) (fun p => rfl)
  · exact pagination_spec.2.2 _ 100 0 (fun _ => []) (fun p => rfl)

end CampaignWatcher

namespace CampaignWatcher

theorem lastTen_length_le (l : List α) : (lastTen l).length ≤ 10 := by
  unfold lastTen
  rw [List.length_drop]
  omega

theorem lastTen_of_length_le (l : List α) (h : l.length ≤ 10) : lastTen l = l := by
  unfold lastTen
  have h0 : l.length - 10 = 0 := by omega
  rw [h0, List.drop_zero]

theorem lastTen_append (X E : List α) : lastTen (lastTen X ++ E) = lastTen (X ++ E) := by
  unfold lastTen
  rw [List.drop_append_eq_append_drop, List.drop_append_eq_append_drop, List.drop_drop]
  congr 1
  · congr 1
    simp only [List.length_append, List.length_drop]
    omega
  · congr 1
    simp only [List.length_append, List.length_drop]
    omega

theorem applyResults_activityFeed (campaign : WCampaign) (now : Int)
    (rs : List ApiResult) (st : WatcherState) :
    (applyResults campaign now rs st).activityFeed =
      if (updatesAndStates campaign rs st.callStates).1.length > 0 then
        lastTen (st.activityFeed ++ (updatesAndStates campaign rs st.callStates).1)
      else st.activityFeed := rfl

/-- Claim C10: starting from a feed of at most ten events, after any
    sequence of successful update passes the activity feed is exactly the
    last ten of all events ever emitted (in emission order, oldest first),
    hence never exceeds ten entries. -/
theorem activity_feed_bounded (campaign : WCampaign) (now : Int) :
    ∀ (batches : List (List ApiResult)) (st0 : WatcherState),
      st0.activityFeed.length ≤ 10 →
      (batches.foldl (fun st rs => applyResults campaign now rs st) st0).activityFeed =
        lastTen (st0.activityFeed ++ emittedSeq campaign now batches st0) ∧
      (batches.foldl (fun st rs => applyResults campaign now rs st) st0).activityFeed.length
        ≤ 10 := by
  intro batches
  induction batches with
  | nil =>
    intro st0 h0
    simp only [List.foldl_nil, emittedSeq, List.append_nil]
    exact ⟨(lastTen_of_length_le _ h0).symm, h0⟩
  | cons rs rest ih =>
    intro st0 h0
    simp only [List.foldl_cons, emittedSeq]
    have h1 : (applyResults campaign now rs st0).activityFeed.length ≤ 10 := by
      rw [applyResults_activityFeed]
      split
      · exact lastTen_length_le _
      · exact h0
    have hih := ih (applyResults campaign now rs st0) h1
    refine ⟨?_, hih.2⟩
    rw [hih.1, applyResults_activityFeed]
    by_cases hu : (updatesAndStates campaign rs st0.callStates).1.length > 0
    · rw [if_pos hu, lastTen_append, List.append_assoc]
    · rw [if_neg hu]
      have : (updatesAndStates campaign rs st0.callStates).1 = [] := by
        cases hc : (updatesAndStates campaign rs st0.callStates).1 with
        | nil => rfl
        | cons a b => rw [hc] at hu; simp at hu
      rw [this]
      simp

/-- Witness for `activity_feed_bounded`: a two-pass run over a two-call
    campaign starting from the fresh session state. -/
theorem activity_feed_bounded_witness :
    (([[{ callId := "a", callStatus := some "Running" }],
       [{ callId := "a", callStatus := some "Completed" }]] : List (List ApiResult)).foldl
        (fun st rs => applyResults ⟨2, ["a", "b"], []⟩ 5 rs st) {}).activityFeed =
      lastTen (({} : WatcherState).activityFeed ++
        emittedSeq ⟨2, ["a", "b"], []⟩ 5
          [[{ callId := "a", callStatus := some "Running" }],
           [{ callId := "a", callStatus := some "Completed" }]] {}) ∧
    (([[{ callId := "a", callStatus := some "Running" }],
       [{ callId := "a", callStatus := some "Completed" }]] : List (List ApiResult)).foldl
        (fun st rs => applyResults ⟨2, ["a", "b"], []⟩ 5 rs st) {}).activityFeed.length ≤ 10 :=
  activity_feed_bounded ⟨2, ["a", "b"], []⟩ 5
    [[{ callId := "a", callStatus := some "Running" }],
     [{ callId := "a", callStatus := some "Completed" }]] {} (by decide)

end CampaignWatcher

namespace CampaignWatcher

theorem findFirst_eq_head_of_filter (p : α → Bool) (l : List α) :
    l.find? p = (l.filter p).head? := by
  induction l with
  | nil => rfl
  | cons a t ih =>
    cases h : p a with
    | true => simp [List.find?_cons, List.filter_cons, h]
    | false =>
      rw [List.find?_cons, List.filter_cons, h, if_neg (by simp)]
      exact ih

theorem scanDays_eq_spec (sched : Sched) (offset t : Int) :
    ∀ days : List Int,
      scanDays sched offset t days =
        match (days.filter (fun i =>
            !(getScheduleForDay sched
                (dayName ((localDayIndex offset t + i) % 7))).isEmpty)).head? with
        | some i =>
          match getScheduleForDay sched (dayName ((localDayIndex offset t + i) % 7)) with
          | r :: _ => NextWindow.window (windowInstant offset t i r.start)
          | [] => NextWindow.noUpcoming
        | none => NextWindow.noUpcoming := by
  intro days
  induction days with
  | nil => rfl
  | cons i rest ih =>
    simp only [List.filter_cons]
    cases hday : getScheduleForDay sched (dayName ((localDayIndex offset t + i) % 7)) with
    | nil =>
      rw [if_neg (by simp)]
      simp only [scanDays, hday]
      exact ih
    | cons r rs =>
      rw [if_pos (by rfl)]
      simp only [List.head?_cons, scanDays, hday]

/-- The next-window scan of the source equals the spec's scan description at
    the same timezone offset. -/
theorem findNext_eq_specNextWindow (sched : Sched) (offset t : Int) :
    findNextAvailableWindow sched offset t = specNextWindow sched offset t := by
  simp only [findNextAvailableWindow, specNextWindow]
  rw [findFirst_eq_head_of_filter]
  cases hh : (List.filter
      (fun r => decide (startMinutes r > localMinuteOfDay offset t))
      (getScheduleForDay sched (dayName (localDayIndex offset t)))).head? with
  | some r => rfl
  | none => exact scanDays_eq_spec sched offset t [1, 2, 3, 4, 5, 6, 7]

/-- Claim C5, counterexample: schedule Monday 09:00-17:00 in UTC
    (agent offset 0), process timezone UTC+10 (offset 600), instant
    Monday 18:00 UTC (2520 minutes past the Sunday-midnight epoch).  The
    check is closed either way, but the code computes the next window on the
    process-local clock (instant 11460 = local Monday 09:00, six local days
    ahead), while computing it in the schedule's timezone as the claim
    demands gives instant 12060 (next Monday 09:00 UTC): not all steps run
    in the schedule's timezone. -/
theorem schedule_timezone_counterexample :
    isWithinSchedule
        (some [("Mon", [{ start := { hour := 9, minute := 0 },
                          stop := { hour := 17, minute := 0 } }])]) 0 600 2520 =
      { isOpen := false, nextWindow := some (NextWindow.window 11460) } ∧
    specIsOpen
        (some [("Mon", [{ start := { hour := 9, minute := 0 },
                          stop := { hour := 17, minute := 0 } }])]) 0 2520 =
      { isOpen := false, nextWindow := some (NextWindow.window 12060) } ∧
    (11460 : Int) ≠ 12060 := by
  decide

/-- Claim C5, amended: the open test runs in the schedule's timezone — open
    exactly when some range of the weekday of the instant, viewed at the
    agent offset, satisfies `start <= nowMinutes < end` — but when closed the
    next window is computed by the spec's scan (first later range today, else
    the first range of the earliest of the next seven days, else
    no-upcoming-schedule) on the process-local clock, not the schedule's. -/
theorem isWithinSchedule_spec (sched : Sched) (agentOffset sysOffset t : Int) :
    ((isWithinSchedule (some sched) agentOffset sysOffset t).isOpen = true ↔
      ∃ r ∈ getScheduleForDay sched (dayName (localDayIndex agentOffset t)),
        startMinutes r ≤ localMinuteOfDay agentOffset t ∧
          localMinuteOfDay agentOffset t < endMinutes r) ∧
    ((isWithinSchedule (some sched) agentOffset sysOffset t).isOpen = false →
      (isWithinSchedule (some sched) agentOffset sysOffset t).nextWindow =
        some (specNextWindow sched sysOffset t)) := by
  constructor
  · simp only [isWithinSchedule]
    by_cases hcond : (getScheduleForDay sched (dayName (localDayIndex agentOffset t))).any
        (fun r => decide (startMinutes r ≤ localMinuteOfDay agentOffset t) &&
          decide (localMinuteOfDay agentOffset t < endMinutes r)) = true
    · rw [if_pos hcond]
      constructor
      · intro _
        simpa using hcond
      · intro _
        rfl
    · rw [if_neg hcond]
      constructor
      · intro h
        exact absurd h (by simp)
      · intro hex
        exact absurd ((by simpa using hex : _)) hcond
  · simp only [isWithinSchedule]
    by_cases hcond : (getScheduleForDay sched (dayName (localDayIndex agentOffset t))).any
        (fun r => decide (startMinutes r ≤ localMinuteOfDay agentOffset t) &&
          decide (localMinuteOfDay agentOffset t < endMinutes r)) = true
    · rw [if_pos hcond]
      intro h
      exact absurd h (by simp)
    · rw [if_neg hcond]
      intro _
      rw [findNext_eq_specNextWindow]

/-- Witness for `isWithinSchedule_spec`: Monday 09:00-17:00 UTC with the
    process also in UTC is open at Monday 10:00 UTC (2040) and closed at
    Monday 18:00 UTC (2520) with next window the following Monday 09:00 UTC
    (instant 12060). -/
theorem isWithinSchedule_spec_witness :
    (isWithinSchedule
        (some [("Mon", [{ start := { hour := 9, minute := 0 },
                          stop := { hour := 17, minute := 0 } }])]) 0 0 2040).isOpen = true ∧
    (isWithinSchedule
        (some [("Mon", [{ start := { hour := 9, minute := 0 },
                          stop := { hour := 17, minute := 0 } }])]) 0 0 2520).nextWindow =
      some (NextWindow.window 12060) := by
  constructor
  · exact (isWithinSchedule_spec
        [("Mon", [{ start := { hour := 9, minute := 0 },
                    stop := { hour := 17, minute := 0 } }])] 0 0 2040).1.mpr
      ⟨{ start := { hour := 9, minute := 0 }, stop := { hour := 17, minute := 0 } },
        by decide, by decide, by decide⟩
  · have h := (isWithinSchedule_spec
        [("Mon", [{ start := { hour := 9, minute := 0 },
                    stop := { hour := 17, minute := 0 } }])] 0 0 2520).2 (by decide)
    rw [h]
    decide

end CampaignWatcher
